import Mathlib

/-!
Verification development for the copycut incremental directory-size
aggregation engine.

The definitions below are a shallow embedding of the client-side engine:

* `fmtSize`, `getDate`, `getTime`, `extOf`, `compare` embed
  `src/utils/fileDataHelpers.ts`;
* `AggState` embeds the per-epoch mutable refs of `src/hooks/fs/useFs.ts`
  (`runningTotalRef`, `knownDirBytesRef`, `scanningDirsRef`,
  `pendingProgressRef`, `flushTimerRef`, `lastFlushedBytesRef`,
  `currentFlushScanKeyRef`, `nameToRowIndexRef`, rows and published totals);
* `handleProgress`, `handleChild`, `handleSummary` embed the three
  `dir_size:*` event listeners of `useFs.ts`;
* `scheduleFlushProgress` and `flushProgressNow` embed the throttled flush
  of the `useFs` hook (`hooks/useFs.ts`, superseded-iteration file);
* `loadPath` embeds the pure part of the `loadPath` navigation routine:
  filtering, sorting, cache prefill, row building and state reset.

JavaScript `Map`s are embedded as insertion-ordered association lists
(`lookupA` / `setA` / `eraseA`), JS `Set`s as duplicate-free lists, byte
counts as `Nat` (exact for every size in the double-exact range the UI can
encounter), and `localeCompare(..., { sensitivity: "base" })` as code-point
comparison of lower-cased text — the standard shallow model of base-sensitive
collation.
-/

namespace CopyCut

/-! ## Association lists with JS `Map` semantics (insertion order) -/

/-- `Map.get`: first entry with the given key. -/
def lookupA (l : List (String × Nat)) (k : String) : Option Nat :=
  match l with
  | [] => none
  | (k', v) :: rest => if k' = k then some v else lookupA rest k

/-- `Map.set`: replace the value in place if the key is present, else append. -/
def setA (k : String) (v : Nat) : List (String × Nat) → List (String × Nat)
  | [] => [(k, v)]
  | (k', v') :: rest => if k' = k then (k', v) :: rest else (k', v') :: setA k v rest

/-- `Map.delete`: remove the entry with the given key. -/
def eraseA (k : String) : List (String × Nat) → List (String × Nat)
  | [] => []
  | (k', v') :: rest => if k' = k then rest else (k', v') :: eraseA k rest

/-- Sum of all stored values. -/
def sumA (l : List (String × Nat)) : Nat :=
  l.foldr (fun kv acc => kv.2 + acc) 0

/-! ## Decimal rendering (JS template-literal `${b}` for a nonnegative integer) -/

/-- One decimal digit character. -/
def digitChar (d : Nat) : Char :=
  match d with
  | 0 => '0' | 1 => '1' | 2 => '2' | 3 => '3' | 4 => '4'
  | 5 => '5' | 6 => '6' | 7 => '7' | 8 => '8' | _ => '9'

/-- Decimal digit accumulation with explicit fuel (structural recursion, so
that terms evaluate inside the kernel); `fuel ≥ n` suffices. -/
def natDigitsAux : Nat → Nat → List Char
  | 0, n => [digitChar n]
  | fuel + 1, n =>
    if n < 10 then [digitChar n]
    else natDigitsAux fuel (n / 10) ++ [digitChar (n % 10)]

/-- Decimal digit list of a natural number, most significant first. -/
def natDigits (n : Nat) : List Char := natDigitsAux n n

/-- Decimal string of a natural number. -/
def natToDec (n : Nat) : String := String.mk (natDigits n)

/-- `x.toFixed(1)` for `x = b / u` where `u` is the unit divisor (a power of
two, so the JS double quotient is exact); rounds half away from zero. -/
def fixed1 (b u : Nat) : String :=
  let n := (10 * b + u / 2) / u
  natToDec (n / 10) ++ "." ++ natToDec (n % 10)

/-- `fmtSize` from `src/utils/fileDataHelpers.ts`. -/
def fmtSize (b : Nat) : String :=
  if b < 1024 then natToDec b ++ " B"
  else if b < 1048576 then fixed1 b 1024 ++ " KB"
  else if b < 1073741824 then fixed1 b 1048576 ++ " MB"
  else fixed1 b 1073741824 ++ " GB"

/-- The scanning marker is the only place a parenthesis can appear in a size
label, so a label "carries a scanning marker" iff it contains `(`. -/
def hasMarker (s : String) : Bool := s.data.contains '('

/-! ## Date/time helpers (`getDate` / `getTime` from fileDataHelpers) -/

/-- `m.split(" ")[0]` on the character list. -/
def firstSeg (cs : List Char) : List Char := cs.takeWhile (fun c => c ≠ ' ')

/-- `m.split(" ")[1]` on the character list. -/
def secondSeg (cs : List Char) : List Char :=
  ((cs.dropWhile (fun c => c ≠ ' ')).drop 1).takeWhile (fun c => c ≠ ' ')

/-- `getDate`: the part before the first space, when the string has a space. -/
def getDate (m : Option String) : String :=
  match m with
  | none => ""
  | some s => if s.data.contains ' ' then String.mk (firstSeg s.data) else ""

/-- `getTime`: the part after the first space, when the string has a space. -/
def getTime (m : Option String) : String :=
  match m with
  | none => ""
  | some s => if s.data.contains ' ' then String.mk (secondSeg s.data) else ""

/-! ## Directory entries, pane view, comparator -/

/-- `FileEntry`: one level of filesystem listing. -/
structure FileEntry where
  name : String
  is_dir : Bool
  size : Option Nat := none
  modified : Option String := none
deriving DecidableEq

/-- The four sort keys of `PaneView.sortKey`. -/
inductive SortKey where
  | name | size | date | type
deriving DecidableEq

/-- The two sort directions of `PaneView.sortDir`. -/
inductive SortDir where
  | asc | desc
deriving DecidableEq

/-- `PaneView`: the active view options. -/
structure PaneView where
  showHidden : Bool
  sortKey : SortKey
  sortDir : SortDir
  dirsFirst : Bool
deriving DecidableEq

/-- The default view used when no `PaneView` is supplied. -/
def defaultView : PaneView :=
  { showHidden := false, sortKey := .name, sortDir := .asc, dirsFirst := true }

/-- Code-point comparison of character lists, as an integer sign. -/
def cmpChars : List Char → List Char → Int
  | [], [] => 0
  | [], _ :: _ => -1
  | _ :: _, [] => 1
  | a :: as, b :: bs =>
    if a.val < b.val then -1
    else if b.val < a.val then 1
    else cmpChars as bs

/-- Plain `localeCompare` modelled as code-point comparison. -/
def cmpStr (a b : String) : Int := cmpChars a.data b.data

/-- Lower-cased text of a string. -/
def lowerStr (s : String) : String := String.mk (s.data.map Char.toLower)

/-- `localeCompare(..., { sensitivity: "base" })` modelled as case-insensitive
code-point comparison. -/
def cmpCI (a b : String) : Int := cmpStr (lowerStr a) (lowerStr b)

/-- `extOf` from fileDataHelpers: the lower-cased suffix after the last dot,
empty when the last dot is missing or at position 0. -/
def extOf (nm : String) : String :=
  match (List.range nm.data.length).filter (fun i => nm.data.get? i = some '.') |>.getLast? with
  | some i => if 0 < i then lowerStr (String.mk (nm.data.drop (i + 1))) else ""
  | none => ""

/-- The comparison of the selected sort key, before direction inversion. -/
def keyCmp (v : PaneView) (a b : FileEntry) : Int :=
  match v.sortKey with
  | .name => cmpCI a.name b.name
  | .size => (a.size.getD 0 : Int) - (b.size.getD 0 : Int)
  | .date => cmpStr (a.modified.getD "") (b.modified.getD "")
  | .type =>
    let r := cmpStr (extOf a.name) (extOf b.name)
    if r = 0 then cmpCI a.name b.name else r

/-- `compare` from `src/utils/fileDataHelpers.ts`: directories-first
partition, then the selected key, direction inversion applied to the key
comparison only. -/
def compareEntry (a b : FileEntry) (v : PaneView) : Int :=
  if v.dirsFirst ∧ a.is_dir ∧ ¬ b.is_dir then -1
  else if v.dirsFirst ∧ ¬ a.is_dir ∧ b.is_dir then 1
  else
    let res := keyCmp v a b
    if v.sortDir = .desc then -res else res

/-! ## Stable sort (JS `Array.prototype.sort` is stable) -/

/-- Insert behind every already-placed element that is `le` the new one:
the stable insertion step. -/
def stableInsert (le : FileEntry → FileEntry → Bool) (x : FileEntry) :
    List FileEntry → List FileEntry
  | [] => [x]
  | y :: ys => if le y x then y :: stableInsert le x ys else x :: y :: ys

/-- Stable sort by a boolean `le`. -/
def stableSort (le : FileEntry → FileEntry → Bool) (l : List FileEntry) :
    List FileEntry :=
  l.foldl (fun acc x => stableInsert le x acc) []

/-- The sort used by `loadPath`: stable, ordered by `compare(a, b) <= 0`. -/
def sortEntries (v : PaneView) (l : List FileEntry) : List FileEntry :=
  stableSort (fun a b => compareEntry a b v ≤ 0) l

/-! ## Rows and aggregator state -/

/-- `RowType` as built by `useFs.ts` (displayName, dir flag, size and date
labels, the real entry name, and the synthetic parent-row flag). -/
structure RowType where
  displayName : String
  isDir : Bool
  size : String
  date : String
  realName : Option String := none
  specialUp : Bool := false
deriving DecidableEq

/-- The per-epoch aggregator state: one field per mutable ref of the hook,
plus the published `rows`, `totalBytes` and `itemsCount` React state. -/
structure AggState where
  scanKey : String
  known : List (String × Nat)
  nameIndex : List (String × Nat)
  scanning : List String
  pending : List (String × Nat)
  flushTimer : Option Nat
  lastFlushed : Nat
  flushScanKey : String
  runningTotal : Nat
  totalBytes : Nat
  itemsCount : Nat
  rows : List RowType
deriving DecidableEq

/-- The state of a freshly mounted hook, before the first navigation. -/
def initialState : AggState :=
  { scanKey := "", known := [], nameIndex := [], scanning := [], pending := [],
    flushTimer := none, lastFlushed := 0, flushScanKey := "",
    runningTotal := 0, totalBytes := 0, itemsCount := 0, rows := [] }

/-- The flush debounce delay in milliseconds (`setTimeout(..., 100)`). -/
def flushDelayMs : Nat := 100

/-- The burst threshold forcing an immediate flush (`8 * 1024 * 1024`). -/
def burstBytes : Nat := 8 * 1024 * 1024

/-- `scheduleFlushProgress`: cancel and re-key the timer if the scan key
changed, then arm a single-shot `flushDelayMs` timer if none is armed. -/
def scheduleFlushProgress (key : String) (s : AggState) : AggState :=
  let s1 := if s.flushScanKey ≠ key then
      { s with flushTimer := none, flushScanKey := key, lastFlushed := 0 }
    else s
  match s1.flushTimer with
  | some _ => s1
  | none => { s1 with flushTimer := some flushDelayMs }

/-- The body of the `pendingProgressRef.forEach` loop in `flushProgressNow`:
walks the pending entries in insertion order, accepting each monotonic
increase into the known map and collecting row updates and the total delta. -/
def flushFold (scanning : List String) (nameIndex : List (String × Nat)) :
    List (String × Nat) → List (String × Nat) × List (Nat × Nat) × Nat →
    List (String × Nat) × List (Nat × Nat) × Nat
  | [], acc => acc
  | (name, bytes) :: rest, (known, updates, totalDelta) =>
    if name ∈ scanning then
      let prev := (lookupA known name).getD 0
      let bounded := max prev bytes
      if bounded = prev then flushFold scanning nameIndex rest (known, updates, totalDelta)
      else
        let updates2 := match lookupA nameIndex name with
          | some idx => updates ++ [(idx, bounded)]
          | none => updates
        flushFold scanning nameIndex rest
          (setA name bounded known, updates2, totalDelta + (bounded - prev))
    else flushFold scanning nameIndex rest (known, updates, totalDelta)

/-- Apply the collected row updates: each sets the row's size label back to a
provisional `"<size> (scanning…)"`. -/
def applyRowUpdates (rows : List RowType) (updates : List (Nat × Nat)) :
    List RowType :=
  updates.foldl (fun rs u =>
    match rs.get? u.1 with
    | none => rs
    | some r => rs.set u.1 { r with size := fmtSize u.2 ++ " (scanning…)" }) rows

/-- `flushProgressNow(expectedScanKey)`: drain pending progress in one batched
update of the known map, the running total and the row labels. -/
def flushProgressNow (expectedScanKey : String) (s : AggState) : AggState :=
  if expectedScanKey ≠ s.scanKey then { s with pending := [] }
  else if s.pending = [] then s
  else
    let r := flushFold s.scanning s.nameIndex s.pending (s.known, [], 0)
    let s1 := { s with pending := [], known := r.1 }
    if r.2.1 = [] ∧ r.2.2 = 0 then s1
    else
      let s2 := if 0 < r.2.2 then
          { s1 with runningTotal := s1.runningTotal + r.2.2,
                    totalBytes := s1.runningTotal + r.2.2 }
        else s1
      if r.2.1 = [] then s2
      else { s2 with rows := applyRowUpdates s2.rows r.2.1 }

/-- The `dir_size:progress` listener: gated by scan key and scanning set,
clamp into the pending map, then either force an immediate flush on a big
jump or schedule the debounced flush. -/
def handleProgress (scanId name : String) (bytes : Nat) (s : AggState) :
    AggState :=
  if scanId ≠ s.scanKey then s
  else if name ∉ s.scanning then s
  else
    let prev := (lookupA s.pending name).getD 0
    let nextVal := max prev bytes
    let s1 := { s with pending := setA name nextVal s.pending }
    if burstBytes ≤ nextVal - s.lastFlushed then
      flushProgressNow s1.scanKey { s1 with lastFlushed := nextVal, flushTimer := none }
    else scheduleFlushProgress s1.scanKey s1

/-- The `dir_size:child` listener: gated by scan key; drop the pending delta,
clamp the known bytes, unmark scanning, add the positive delta to the total,
and set the row's exact size label when the name has a row. -/
def handleChild (scanId name : String) (bytes : Nat) (s : AggState) :
    AggState :=
  if scanId ≠ s.scanKey then s
  else
    let prev := (lookupA s.known name).getD 0
    let bounded := max prev bytes
    let delta := bounded - prev
    let s1 := { s with pending := eraseA name s.pending,
                       known := setA name bounded s.known,
                       scanning := s.scanning.erase name }
    let s2 := if 0 < delta then
        { s1 with runningTotal := s1.runningTotal + delta,
                  totalBytes := s1.runningTotal + delta }
      else s1
    match lookupA s.nameIndex name with
    | none => s2
    | some idx =>
      match s2.rows.get? idx with
      | none => s2
      | some r =>
        let r2 : RowType :=
          { r with displayName := r.realName.getD "undefined" ++ " /",
                   size := fmtSize bounded }
        { s2 with rows := s2.rows.set idx r2 }

/-- The row normalization of the `dir_size:summary` listener: directory rows
other than the parent row get `displayName` rebuilt from the real name; the
size label is not touched. -/
def summaryRowMap (r : RowType) : RowType :=
  if ¬ r.isDir ∨ r.specialUp then r
  else
    match r.realName with
    | none => r
    | some nm => if nm = "" then r else { r with displayName := nm ++ " /" }

/-- The `dir_size:summary` listener: gated by scan key; clear pending and the
timer, clamp the running total up to the reported bytes, clear the scanning
set, and normalize directory display names. -/
def handleSummary (scanId : String) (bytes : Nat) (s : AggState) : AggState :=
  if scanId ≠ s.scanKey then s
  else
    { s with pending := [], flushTimer := none,
             runningTotal := max s.runningTotal bytes,
             totalBytes := max s.runningTotal bytes,
             scanning := [],
             rows := s.rows.map summaryRowMap }

/-- The event alphabet of one epoch: the three scan events, each carrying its
correlation key, plus the flush-timer firing. -/
inductive Ev where
  | progress (scanId name : String) (bytes : Nat)
  | childDone (scanId name : String) (bytes : Nat)
  | summary (scanId : String) (bytes : Nat)
  | flushFire
deriving DecidableEq

/-- One aggregator step. A timer firing clears the timer slot and runs the
flush against the scan key it was armed with. -/
def step (s : AggState) : Ev → AggState
  | .progress k n b => handleProgress k n b s
  | .childDone k n b => handleChild k n b s
  | .summary k b => handleSummary k b s
  | .flushFire =>
    match s.flushTimer with
    | none => s
    | some _ => flushProgressNow s.flushScanKey { s with flushTimer := none }

/-- The scan-key of an event, when it carries one. -/
def evScanId : Ev → Option String
  | .progress k _ _ => some k
  | .childDone k _ _ => some k
  | .summary k _ => some k
  | .flushFire => none

/-- Whether an event is a `Summary`. -/
def isSummaryEv : Ev → Bool
  | .summary _ _ => true
  | _ => false

/-! ## Navigation (`loadPath`) -/

/-- A cache record `[bytes, itemCount, completed]`. -/
abbrev CacheRec := Nat × Nat × Bool

/-- `cacheIdx >= 0 ? cached[cacheIdx] : null`: resolve the cache record of a
child name through `childDirs.findIndex`, treating a missing slot as null. -/
def cacheFor (childDirs : List FileEntry) (cached : List (Option CacheRec))
    (nm : String) : Option CacheRec :=
  match childDirs.findIdx? (fun cd => cd.name = nm) with
  | some i => (cached.get? i).getD none
  | none => none

/-- The accumulator of the row-building loop of `loadPath`. -/
structure BuildAcc where
  rows : List RowType
  nameIndex : List (String × Nat)
  known : List (String × Nat)
  scanning : List String
  sumCached : Nat
  needsScan : Bool
deriving DecidableEq

/-- `initialBytes`: the cached byte count of a child, 0 on a cache miss. -/
def cacheBytes (childDirs : List FileEntry) (cached : List (Option CacheRec))
    (nm : String) : Nat :=
  match cacheFor childDirs cached nm with
  | some rec0 => rec0.1
  | none => 0

/-- `completed`: whether the child's cache record is marked complete. -/
def cacheDone (childDirs : List FileEntry) (cached : List (Option CacheRec))
    (nm : String) : Bool :=
  match cacheFor childDirs cached nm with
  | some rec0 => rec0.2.2
  | none => false

/-- The row pushed for a directory entry: final label when the cache record
is complete, provisional label with the scanning marker otherwise (and no
space before the marker when the prefill bytes are 0). -/
def dirRow (childDirs : List FileEntry) (cached : List (Option CacheRec))
    (e : FileEntry) : RowType :=
  { displayName := e.name ++ " /", isDir := true,
    size := if cacheDone childDirs cached e.name
      then fmtSize (cacheBytes childDirs cached e.name)
      else fmtSize (cacheBytes childDirs cached e.name) ++
        (if cacheBytes childDirs cached e.name ≠ 0 then " " else "") ++
        "(scanning…)",
    date := getDate e.modified ++ " " ++ getTime e.modified,
    realName := some e.name }

/-- The row pushed for a file entry. -/
def fileRow (e : FileEntry) : RowType :=
  { displayName := e.name, isDir := false,
    size := fmtSize (e.size.getD 0),
    date := getDate e.modified ++ " " ++ getTime e.modified,
    realName := some e.name }

/-- One iteration of the row-building loop of `loadPath`. -/
def buildStep (childDirs : List FileEntry) (cached : List (Option CacheRec))
    (e : FileEntry) (acc : BuildAcc) : BuildAcc :=
  if e.is_dir then
    { rows := acc.rows ++ [dirRow childDirs cached e],
      nameIndex := setA e.name acc.rows.length acc.nameIndex,
      known := setA e.name (cacheBytes childDirs cached e.name) acc.known,
      scanning := if cacheDone childDirs cached e.name then acc.scanning
        else if e.name ∈ acc.scanning then acc.scanning
        else acc.scanning ++ [e.name],
      sumCached := acc.sumCached + cacheBytes childDirs cached e.name,
      needsScan := acc.needsScan || !cacheDone childDirs cached e.name }
  else
    { acc with rows := acc.rows ++ [fileRow e],
               nameIndex := setA e.name acc.rows.length acc.nameIndex }

/-- The row-building loop of `loadPath`: one pass over the sorted entries,
pushing one row each, prefilling `known` and `scanning` for directories from
the cache answers. -/
def buildLoop (childDirs : List FileEntry) (cached : List (Option CacheRec)) :
    List FileEntry → BuildAcc → BuildAcc
  | [], acc => acc
  | e :: rest, acc =>
    buildLoop childDirs cached rest (buildStep childDirs cached e acc)

/-- The synthetic parent row pushed first by `loadPath`. -/
def upRow : RowType :=
  { displayName := "..", isDir := true, size := "", date := "", specialUp := true }

/-- Result of a navigation: the fresh epoch state and whether the scan
coordinator (`ensure_path_sizer`) is invoked. -/
structure LoadResult where
  state : AggState
  startScan : Bool
deriving DecidableEq

/-- Hidden-entry filter: `!e.name.startsWith(".")`. -/
def isHiddenName (nm : String) : Bool :=
  match nm.data with
  | '.' :: _ => true
  | _ => false

/-- File bytes at the listed level: sum of the sizes of non-directory
entries. -/
def levelFilesBytes (sorted : List FileEntry) : Nat :=
  ((sorted.filter (fun e => ¬ e.is_dir)).map (fun e => e.size.getD 0)).sum

/-- The scan key `` `${p}|${!!v.showHidden}|${[...ignores].sort().join(",")}` ``
with the source's empty `ignores` list. -/
def mkScanKey (p : String) (v : PaneView) : String :=
  p ++ "|" ++ (if v.showHidden then "true" else "false") ++ "|"

/-- The pure part of `loadPath`: filter, sort, prefill from the cache answers,
build the rows, reset the epoch state, and report whether a scan is started.
`prev` carries the refs `loadPath` does not reset (`lastFlushedBytesRef` and
`currentFlushScanKeyRef`). -/
def loadPath (prev : AggState) (p : String) (vOpt : Option PaneView)
    (entries : List FileEntry) (cached : List (Option CacheRec)) : LoadResult :=
  let v := vOpt.getD defaultView
  let filtered := if v.showHidden then entries
    else entries.filter (fun e => ¬ isHiddenName e.name)
  let sorted := sortEntries v filtered
  let childDirs := sorted.filter (fun e => e.is_dir)
  let acc := buildLoop childDirs cached sorted
    { rows := [upRow], nameIndex := [], known := [], scanning := [],
      sumCached := 0, needsScan := false }
  { state := { prev with
      scanKey := mkScanKey p v,
      known := acc.known,
      nameIndex := acc.nameIndex,
      scanning := acc.scanning,
      pending := [],
      flushTimer := none,
      runningTotal := levelFilesBytes sorted + acc.sumCached,
      totalBytes := levelFilesBytes sorted + acc.sumCached,
      itemsCount := sorted.length,
      rows := acc.rows },
    startScan := acc.needsScan }

/-! ## Spec-side definitions used to state the claims -/

/-- The spec's running-total equation: `runningTotal` = (file bytes at this
level) + Σ over children of max(cache-prefill bytes, latest accepted bytes).
Since `knownBytes` is initialized to the prefill bytes and only ever clamped
upward, that per-child maximum is exactly the recorded `knownBytes` value, so
the right-hand side is the sum of the known map. -/
abbrev claimTotalEq (files : Nat) (s : AggState) : Prop :=
  s.runningTotal = files + sumA s.known

/-- The file bytes at the listed level of an epoch, as `loadPath` computes
them from its inputs. -/
def epochFileBytes (vOpt : Option PaneView) (entries : List FileEntry) : Nat :=
  let v := vOpt.getD defaultView
  levelFilesBytes (sortEntries v
    (if v.showHidden then entries else entries.filter (fun e => ¬ isHiddenName e.name)))

/-- Direction inversion applied to a key comparison. -/
def dirApply (v : PaneView) (r : Int) : Int :=
  if v.sortDir = .desc then -r else r

/-- The ordering claimed by the spec sentence, word for word: directories
first (when enabled) as the primary key, then the selected key with direction
inversion applied last, and remaining ties broken by case-insensitive name. -/
def claimCompare (a b : FileEntry) (v : PaneView) : Int :=
  if v.dirsFirst ∧ a.is_dir ∧ ¬ b.is_dir then -1
  else if v.dirsFirst ∧ ¬ a.is_dir ∧ b.is_dir then 1
  else
    let r := dirApply v (keyCmp v a b)
    if r = 0 then cmpCI a.name b.name else r

/-- The sorted child-directory list of an epoch, as `loadPath` computes it
(the batch cache query is issued for exactly these). -/
def childDirsOf (vOpt : Option PaneView) (entries : List FileEntry) :
    List FileEntry :=
  let v := vOpt.getD defaultView
  (sortEntries v
    (if v.showHidden then entries
     else entries.filter (fun e => ¬ isHiddenName e.name))).filter
    (fun e => e.is_dir)

/-! ## Concrete fixtures -/

/-- The spec's worked scenario: files `a` = 100 B and `b` = 200 B, directory
`X` (cached, completed, 500 B), directory `Y` (no cache entry). -/
def entsC4 : List FileEntry :=
  [{ name := "a", is_dir := false, size := some 100 },
   { name := "b", is_dir := false, size := some 200 },
   { name := "X", is_dir := true },
   { name := "Y", is_dir := true }]

/-- Cache answers for the sorted child directories `[X, Y]` of the scenario. -/
def cachedC4 : List (Option CacheRec) := [some (500, 0, true), none]

/-- The scenario epoch right after navigation. -/
def lrC4 : LoadResult := loadPath initialState "/r" none entsC4 cachedC4

/-- The scenario's active scan key. -/
def keyC4 : String := lrC4.state.scanKey

/-- Scenario after `Progress(Y, 300)`. -/
def sC4p : AggState := step lrC4.state (.progress keyC4 "Y" 300)

/-- Scenario after the debounced flush fires. -/
def sC4f : AggState := step sC4p .flushFire

/-- Scenario after `ChildComplete(Y, 450)`. -/
def sC4c : AggState := step sC4f (.childDone keyC4 "Y" 450)

/-- Scenario after `Summary(1250)`. -/
def sC4s : AggState := step sC4c (.summary keyC4 1250)

/-- A one-directory listing (directory `Y`, no cache entry). -/
def entsY : List FileEntry := [{ name := "Y", is_dir := true }]

/-- Epoch over `entsY` with a cache miss for `Y`. -/
def lrY : LoadResult := loadPath initialState "/r" none entsY [none]

/-- The `entsY` epoch state after prefill. -/
def sY : AggState := lrY.state

/-- The `entsY` epoch after a `Summary` reporting 1000 bytes, with `Y` never
having sent a `ChildComplete`. -/
def sYsum : AggState := step sY (.summary sY.scanKey 1000)

/-- View sorting ascending by size. -/
def vSize : PaneView :=
  { showHidden := false, sortKey := .size, sortDir := .asc, dirsFirst := true }

/-- Two equal-sized files listed as `b.txt` before `a.txt`. -/
def entsTie : List FileEntry :=
  [{ name := "b.txt", is_dir := false, size := some 100 },
   { name := "a.txt", is_dir := false, size := some 100 }]

/-- Epoch over `entsTie` under the size sort. -/
def lrTie : LoadResult := loadPath initialState "/r" (some vSize) entsTie []

/-- Cache answers marking both scenario children completed. -/
def cachedAllDone : List (Option CacheRec) :=
  [some (500, 0, true), some (42, 0, true)]

/-- Epoch over the scenario listing with every child completed in cache. -/
def lrFast : LoadResult := loadPath initialState "/r" none entsC4 cachedAllDone

/-! ## Association-list lemmas -/

/-- The key list of an association list. -/
def keysOf (l : List (String × Nat)) : List String := l.map Prod.fst

@[simp] theorem keysOf_nil : keysOf [] = [] := rfl

@[simp] theorem keysOf_cons (a : String) (b : Nat) (l : List (String × Nat)) :
    keysOf ((a, b) :: l) = a :: keysOf l := rfl

theorem lookupA_setA_self (l : List (String × Nat)) (k : String) (v : Nat) :
    lookupA (setA k v l) k = some v := by
  induction l with
  | nil => simp [setA, lookupA]
  | cons kv rest ih =>
    obtain ⟨a, b⟩ := kv
    by_cases h : a = k
    · simp [setA, lookupA, h]
    · simp [setA, lookupA, h, ih]

theorem lookupA_setA_ne (l : List (String × Nat)) (k k' : String) (v : Nat)
    (h : k' ≠ k) : lookupA (setA k v l) k' = lookupA l k' := by
  induction l with
  | nil => simp [setA, lookupA, Ne.symm h]
  | cons kv rest ih =>
    obtain ⟨a, b⟩ := kv
    by_cases h1 : a = k
    · subst h1
      simp [setA, lookupA, Ne.symm h]
    · by_cases h2 : a = k'
      · simp [setA, lookupA, h1, h2, h]
      · simp [setA, lookupA, h1, h2, ih]

theorem setA_of_lookup_eq (l : List (String × Nat)) (k : String) (v : Nat)
    (h : lookupA l k = some v) : setA k v l = l := by
  induction l with
  | nil => simp [lookupA] at h
  | cons kv rest ih =>
    obtain ⟨a, b⟩ := kv
    by_cases h1 : a = k
    · simp only [lookupA, h1, if_true, Option.some.injEq] at h
      simp [setA, h1, h]
    · simp only [lookupA, h1, if_false] at h
      simp [setA, h1, ih h]

theorem sumA_setA (l : List (String × Nat)) (k : String) (v : Nat) :
    sumA (setA k v l) + (lookupA l k).getD 0 = sumA l + v := by
  induction l with
  | nil => simp [setA, sumA, lookupA]
  | cons kv rest ih =>
    obtain ⟨a, b⟩ := kv
    by_cases h : a = k
    · simp only [setA, h, if_true, sumA, List.foldr, lookupA]
      simp only [Option.getD_some]
      omega
    · simp only [setA, h, if_false, sumA, List.foldr, lookupA]
      simp only [sumA] at ih
      omega

theorem lookupA_eq_none_of_not_mem_keys (l : List (String × Nat)) (k : String)
    (h : k ∉ keysOf l) : lookupA l k = none := by
  induction l with
  | nil => simp [lookupA]
  | cons kv rest ih =>
    obtain ⟨a, b⟩ := kv
    simp only [keysOf_cons, List.mem_cons, not_or] at h
    simp [lookupA, Ne.symm h.1, ih h.2]

theorem eraseA_of_not_mem_keys (l : List (String × Nat)) (k : String)
    (h : k ∉ keysOf l) : eraseA k l = l := by
  induction l with
  | nil => simp [eraseA]
  | cons kv rest ih =>
    obtain ⟨a, b⟩ := kv
    simp only [keysOf_cons, List.mem_cons, not_or] at h
    simp [eraseA, Ne.symm h.1, ih h.2]

theorem not_mem_keys_eraseA (l : List (String × Nat)) (k : String)
    (h : (keysOf l).Nodup) : k ∉ keysOf (eraseA k l) := by
  induction l with
  | nil => simp [eraseA]
  | cons kv rest ih =>
    obtain ⟨a, b⟩ := kv
    rw [keysOf_cons, List.nodup_cons] at h
    by_cases h1 : a = k
    · subst h1
      simp only [eraseA, if_true]
      intro hmem
      exact h.1 hmem
    · simp only [eraseA, h1, if_false, keysOf_cons, List.mem_cons, not_or]
      exact ⟨Ne.symm h1, ih h.2⟩

theorem lookupA_getD_le_setA (l : List (String × Nat)) (k n : String)
    (v : Nat) (hv : (lookupA l k).getD 0 ≤ v) :
    (lookupA l n).getD 0 ≤ (lookupA (setA k v l) n).getD 0 := by
  by_cases h : n = k
  · subst h
    rw [lookupA_setA_self]
    simpa using hv
  · rw [lookupA_setA_ne _ _ _ _ h]

/-! ## Digit and marker lemmas -/

theorem digitChar_ne_paren (d : Nat) : digitChar d ≠ '(' := by
  unfold digitChar
  split <;> decide

theorem paren_not_mem_natDigitsAux (fuel n : Nat) :
    '(' ∉ natDigitsAux fuel n := by
  induction fuel generalizing n with
  | zero =>
    simp [natDigitsAux]
    exact fun h => digitChar_ne_paren n h.symm
  | succ fuel ih =>
    simp only [natDigitsAux]
    split
    · simp
      exact fun h => digitChar_ne_paren n h.symm
    · simp
      refine ⟨ih _, ?_⟩
      exact fun h => digitChar_ne_paren (n % 10) h.symm

theorem hasMarker_natToDec_append (n : Nat) (t : String)
    (ht : '(' ∉ t.data) : hasMarker (natToDec n ++ t) = false := by
  simp only [hasMarker, String.data_append, natToDec]
  rw [Bool.eq_false_iff]
  intro hc
  rcases List.mem_append.mp (List.elem_iff.mp hc) with h | h
  · exact paren_not_mem_natDigitsAux n n h
  · exact ht h

theorem hasMarker_fmtSize (n : Nat) : hasMarker (fmtSize n) = false := by
  unfold fmtSize fixed1
  split
  · exact hasMarker_natToDec_append _ _ (by decide)
  · split
    · rw [String.append_assoc, String.append_assoc]
      exact hasMarker_natToDec_append _ _ (by
        simp only [String.data_append]
        intro h
        rcases List.mem_append.mp h with h | h
        · simp at h
        · rcases List.mem_append.mp h with h | h
          · exact paren_not_mem_natDigitsAux _ _ h
          · simp at h)
    · split
      · rw [String.append_assoc, String.append_assoc]
        exact hasMarker_natToDec_append _ _ (by
          simp only [String.data_append]
          intro h
          rcases List.mem_append.mp h with h | h
          · simp at h
          · rcases List.mem_append.mp h with h | h
            · exact paren_not_mem_natDigitsAux _ _ h
            · simp at h)
      · rw [String.append_assoc, String.append_assoc]
        exact hasMarker_natToDec_append _ _ (by
          simp only [String.data_append]
          intro h
          rcases List.mem_append.mp h with h | h
          · simp at h
          · rcases List.mem_append.mp h with h | h
            · exact paren_not_mem_natDigitsAux _ _ h
            · simp at h)

/-! ## Flush lemmas -/

theorem flushFold_sum (sc : List String) (ni : List (String × Nat)) :
    ∀ (l k : List (String × Nat)) (u : List (Nat × Nat)) (d : Nat),
      sumA (flushFold sc ni l (k, u, d)).1 + d =
        sumA k + (flushFold sc ni l (k, u, d)).2.2 := by
  intro l
  induction l with
  | nil => intro k u d; simp [flushFold]
  | cons kv rest ih =>
    intro k u d
    obtain ⟨name, bytes⟩ := kv
    by_cases hmem : name ∈ sc
    · by_cases heq : max ((lookupA k name).getD 0) bytes = (lookupA k name).getD 0
      · simp only [flushFold, hmem, if_true, heq]
        exact ih k u d
      · cases hni : lookupA ni name with
        | none =>
          simp only [flushFold, hmem, if_true, heq, if_false, hni]
          have h1 := ih (setA name (max ((lookupA k name).getD 0) bytes) k) u
            (d + (max ((lookupA k name).getD 0) bytes - (lookupA k name).getD 0))
          have h2 := sumA_setA k name (max ((lookupA k name).getD 0) bytes)
          have h3 : (lookupA k name).getD 0 ≤ max ((lookupA k name).getD 0) bytes :=
            le_max_left _ _
          omega
        | some idx =>
          simp only [flushFold, hmem, if_true, heq, if_false, hni]
          have h1 := ih (setA name (max ((lookupA k name).getD 0) bytes) k)
            (u ++ [(idx, max ((lookupA k name).getD 0) bytes)])
            (d + (max ((lookupA k name).getD 0) bytes - (lookupA k name).getD 0))
          have h2 := sumA_setA k name (max ((lookupA k name).getD 0) bytes)
          have h3 : (lookupA k name).getD 0 ≤ max ((lookupA k name).getD 0) bytes :=
            le_max_left _ _
          omega
    · simp only [flushFold, hmem, if_false]
      exact ih k u d

theorem flushFold_known_le (sc : List String) (ni : List (String × Nat)) :
    ∀ (l k : List (String × Nat)) (u : List (Nat × Nat)) (d : Nat) (n : String),
      (lookupA k n).getD 0 ≤ (lookupA (flushFold sc ni l (k, u, d)).1 n).getD 0 := by
  intro l
  induction l with
  | nil => intro k u d n; simp [flushFold]
  | cons kv rest ih =>
    intro k u d n
    obtain ⟨name, bytes⟩ := kv
    by_cases hmem : name ∈ sc
    · by_cases heq : max ((lookupA k name).getD 0) bytes = (lookupA k name).getD 0
      · simp only [flushFold, hmem, if_true, heq]
        exact ih k u d n
      · cases hni : lookupA ni name with
        | none =>
          simp only [flushFold, hmem, if_true, heq, if_false, hni]
          exact le_trans
            (lookupA_getD_le_setA k name n _ (le_max_left _ _)) (ih _ _ _ n)
        | some idx =>
          simp only [flushFold, hmem, if_true, heq, if_false, hni]
          exact le_trans
            (lookupA_getD_le_setA k name n _ (le_max_left _ _)) (ih _ _ _ n)
    · simp only [flushFold, hmem, if_false]
      exact ih k u d n

theorem flushNow_frame (key : String) (s : AggState) :
    (flushProgressNow key s).scanKey = s.scanKey ∧
    (flushProgressNow key s).scanning = s.scanning ∧
    (flushProgressNow key s).nameIndex = s.nameIndex ∧
    (flushProgressNow key s).flushTimer = s.flushTimer ∧
    (flushProgressNow key s).lastFlushed = s.lastFlushed ∧
    (flushProgressNow key s).flushScanKey = s.flushScanKey ∧
    (flushProgressNow key s).itemsCount = s.itemsCount ∧
    (flushProgressNow key s).pending = [] := by
  unfold flushProgressNow
  split
  · exact ⟨rfl, rfl, rfl, rfl, rfl, rfl, rfl, rfl⟩
  · split
    · next h => exact ⟨rfl, rfl, rfl, rfl, rfl, rfl, rfl, h⟩
    · dsimp only
      split
      · exact ⟨rfl, rfl, rfl, rfl, rfl, rfl, rfl, rfl⟩
      · split
        · split
          · exact ⟨rfl, rfl, rfl, rfl, rfl, rfl, rfl, rfl⟩
          · exact ⟨rfl, rfl, rfl, rfl, rfl, rfl, rfl, rfl⟩
        · split
          · exact ⟨rfl, rfl, rfl, rfl, rfl, rfl, rfl, rfl⟩
          · exact ⟨rfl, rfl, rfl, rfl, rfl, rfl, rfl, rfl⟩

theorem flushNow_total_mono (key : String) (s : AggState) :
    s.runningTotal ≤ (flushProgressNow key s).runningTotal := by
  unfold flushProgressNow
  split
  · exact le_refl _
  · split
    · exact le_refl _
    · dsimp only
      split
      · exact le_refl _
      · split
        · split
          · exact Nat.le_add_right _ _
          · exact le_refl _
        · split
          · exact Nat.le_add_right _ _
          · exact le_refl _

theorem flushNow_totalEq (key : String) (s : AggState) (F : Nat)
    (h : claimTotalEq F s) : claimTotalEq F (flushProgressNow key s) := by
  unfold flushProgressNow
  split
  · exact h
  · split
    · exact h
    · have hsum := flushFold_sum s.scanning s.nameIndex s.pending s.known [] 0
      unfold claimTotalEq at h ⊢
      dsimp only
      split
      · next hc =>
        obtain ⟨hc1, hc2⟩ := hc
        dsimp only
        omega
      · next hc =>
        split
        · next hpos =>
          split <;> dsimp only <;> omega
        · next hpos =>
          split <;> dsimp only <;> omega

theorem flushNow_known_le (key : String) (s : AggState) (n : String) :
    (lookupA s.known n).getD 0 ≤ (lookupA (flushProgressNow key s).known n).getD 0 := by
  unfold flushProgressNow
  split
  · exact le_refl _
  · split
    · exact le_refl _
    · have hk := flushFold_known_le s.scanning s.nameIndex s.pending s.known [] 0 n
      dsimp only
      split
      · exact hk
      · split
        · split
          · exact hk
          · exact hk
        · split
          · exact hk
          · exact hk

/-! ## Scheduling and handler frame lemmas -/

theorem schedule_frame (key : String) (s : AggState) :
    (scheduleFlushProgress key s).scanKey = s.scanKey ∧
    (scheduleFlushProgress key s).known = s.known ∧
    (scheduleFlushProgress key s).nameIndex = s.nameIndex ∧
    (scheduleFlushProgress key s).scanning = s.scanning ∧
    (scheduleFlushProgress key s).pending = s.pending ∧
    (scheduleFlushProgress key s).runningTotal = s.runningTotal ∧
    (scheduleFlushProgress key s).totalBytes = s.totalBytes ∧
    (scheduleFlushProgress key s).rows = s.rows ∧
    (scheduleFlushProgress key s).itemsCount = s.itemsCount ∧
    (scheduleFlushProgress key s).flushTimer.isSome = true := by
  unfold scheduleFlushProgress
  split
  · dsimp only
    exact ⟨rfl, rfl, rfl, rfl, rfl, rfl, rfl, rfl, rfl, rfl⟩
  · dsimp only
    split
    · next heq => simp [heq]
    · simp

theorem schedule_timer (key : String) (s : AggState)
    (h : s.flushTimer = none ∨ s.flushTimer = some flushDelayMs) :
    (scheduleFlushProgress key s).flushTimer = some flushDelayMs := by
  unfold scheduleFlushProgress
  split
  · dsimp only
  · dsimp only
    rcases h with h | h <;> simp [h]

theorem handleChild_totalEq (k n : String) (b : Nat) (s : AggState) (F : Nat)
    (h : claimTotalEq F s) : claimTotalEq F (handleChild k n b s) := by
  unfold handleChild
  split
  · exact h
  · have hset := sumA_setA s.known n (max ((lookupA s.known n).getD 0) b)
    have hle : (lookupA s.known n).getD 0 ≤ max ((lookupA s.known n).getD 0) b :=
      le_max_left _ _
    unfold claimTotalEq at h ⊢
    dsimp only
    split
    · split <;> (dsimp only; omega)
    · split
      · split <;> (dsimp only; omega)
      · split <;> (dsimp only; omega)

theorem handleChild_total_mono (k n : String) (b : Nat) (s : AggState) :
    s.runningTotal ≤ (handleChild k n b s).runningTotal := by
  unfold handleChild
  split
  · exact le_refl _
  · dsimp only
    split
    · split <;> (dsimp only; omega)
    · split
      · split <;> (dsimp only; omega)
      · split <;> (dsimp only; omega)

theorem handleChild_known_le (k n : String) (b : Nat) (s : AggState)
    (m : String) :
    (lookupA s.known m).getD 0 ≤ (lookupA (handleChild k n b s).known m).getD 0 := by
  unfold handleChild
  split
  · exact le_refl _
  · have hk := lookupA_getD_le_setA s.known n m
      (max ((lookupA s.known n).getD 0) b) (le_max_left _ _)
    dsimp only
    split
    · split <;> (dsimp only; exact hk)
    · split
      · split <;> (dsimp only; exact hk)
      · split <;> (dsimp only; exact hk)

theorem handleSummary_total_mono (k : String) (b : Nat) (s : AggState) :
    s.runningTotal ≤ (handleSummary k b s).runningTotal := by
  unfold handleSummary
  split
  · exact le_refl _
  · exact le_max_left _ _

theorem handleSummary_known_eq (k : String) (b : Nat) (s : AggState) :
    (handleSummary k b s).known = s.known := by
  unfold handleSummary
  split <;> rfl

theorem handleProgress_totalEq (k n : String) (b : Nat) (s : AggState) (F : Nat)
    (h : claimTotalEq F s) : claimTotalEq F (handleProgress k n b s) := by
  unfold handleProgress
  split
  · exact h
  · split
    · exact h
    · dsimp only
      split
      · exact flushNow_totalEq _ _ F h
      · unfold claimTotalEq at h ⊢
        rw [(schedule_frame _ _).2.1, (schedule_frame _ _).2.2.2.2.2.1]
        exact h

theorem handleProgress_total_mono (k n : String) (b : Nat) (s : AggState) :
    s.runningTotal ≤ (handleProgress k n b s).runningTotal := by
  unfold handleProgress
  split
  · exact le_refl _
  · split
    · exact le_refl _
    · dsimp only
      split
      · exact flushNow_total_mono s.scanKey
          { s with pending := setA n (max ((lookupA s.pending n).getD 0) b) s.pending,
                   lastFlushed := max ((lookupA s.pending n).getD 0) b,
                   flushTimer := none }
      · rw [(schedule_frame _ _).2.2.2.2.2.1]

theorem handleProgress_known_le (k n : String) (b : Nat) (s : AggState)
    (m : String) :
    (lookupA s.known m).getD 0 ≤ (lookupA (handleProgress k n b s).known m).getD 0 := by
  unfold handleProgress
  split
  · exact le_refl _
  · split
    · exact le_refl _
    · dsimp only
      split
      · exact flushNow_known_le s.scanKey
          { s with pending := setA n (max ((lookupA s.pending n).getD 0) b) s.pending,
                   lastFlushed := max ((lookupA s.pending n).getD 0) b,
                   flushTimer := none } m
      · rw [(schedule_frame _ _).2.1]

/-! ## Sorting permutation and prefill lemmas -/

theorem stableInsert_perm (le : FileEntry → FileEntry → Bool) (x : FileEntry) :
    ∀ l, (stableInsert le x l).Perm (x :: l) := by
  intro l
  induction l with
  | nil => simp [stableInsert]
  | cons y ys ih =>
    unfold stableInsert
    split
    · exact (ih.cons y).trans (List.Perm.swap x y ys)
    · exact List.Perm.refl _

theorem stableSort_foldl_perm (le : FileEntry → FileEntry → Bool) :
    ∀ (l acc : List FileEntry),
      (l.foldl (fun a x => stableInsert le x a) acc).Perm (l ++ acc) := by
  intro l
  induction l with
  | nil => intro acc; simp
  | cons x xs ih =>
    intro acc
    have h1 := ih (stableInsert le x acc)
    have h2 : (xs ++ stableInsert le x acc).Perm (xs ++ x :: acc) :=
      List.Perm.append_left xs (stableInsert_perm le x acc)
    have h3 : (xs ++ x :: acc).Perm (x :: (xs ++ acc)) := List.perm_middle
    simpa using (h1.trans h2).trans h3

theorem sortEntries_perm (v : PaneView) (l : List FileEntry) :
    (sortEntries v l).Perm l := by
  simpa using stableSort_foldl_perm (fun a b => compareEntry a b v ≤ 0) l []

theorem buildLoop_sum (cd : List FileEntry) (cached : List (Option CacheRec)) :
    ∀ (l : List FileEntry) (acc : BuildAcc),
      (∀ e ∈ l, e.is_dir = true → lookupA acc.known e.name = none) →
      (l.map FileEntry.name).Nodup →
      sumA (buildLoop cd cached l acc).known + acc.sumCached =
        sumA acc.known + (buildLoop cd cached l acc).sumCached := by
  intro l
  induction l with
  | nil => intro acc _ _; simp [buildLoop]
  | cons e rest ih =>
    intro acc hnone hnd
    rw [List.map_cons, List.nodup_cons] at hnd
    simp only [buildLoop]
    by_cases hd : e.is_dir
    · have hek : lookupA acc.known e.name = none :=
        hnone e (List.mem_cons_self e rest) hd
      have hrest : ∀ e' ∈ rest, e'.is_dir = true →
          lookupA (buildStep cd cached e acc).known e'.name = none := by
        intro e' he' hd'
        simp only [buildStep, hd, if_true]
        rw [lookupA_setA_ne]
        · exact hnone e' (List.mem_cons_of_mem e he') hd'
        · intro hcontra
          exact hnd.1 (hcontra ▸ List.mem_map_of_mem FileEntry.name he')
      have hih := ih (buildStep cd cached e acc) hrest hnd.2
      have hk : (buildStep cd cached e acc).known =
          setA e.name (cacheBytes cd cached e.name) acc.known := by
        simp [buildStep, hd]
      have hsc : (buildStep cd cached e acc).sumCached =
          acc.sumCached + cacheBytes cd cached e.name := by
        simp [buildStep, hd]
      rw [hk, hsc] at hih
      have hset := sumA_setA acc.known e.name (cacheBytes cd cached e.name)
      rw [hek] at hset
      simp only [Option.getD_none] at hset
      omega
    · have hrest : ∀ e' ∈ rest, e'.is_dir = true →
          lookupA (buildStep cd cached e acc).known e'.name = none := by
        intro e' he' hd'
        simp only [buildStep, hd, if_false]
        exact hnone e' (List.mem_cons_of_mem e he') hd'
      have hih := ih (buildStep cd cached e acc) hrest hnd.2
      have hk : (buildStep cd cached e acc).known = acc.known := by
        simp [buildStep, hd]
      have hsc : (buildStep cd cached e acc).sumCached = acc.sumCached := by
        simp [buildStep, hd]
      rw [hk, hsc] at hih
      omega

/-! ## List index helpers -/

theorem get?_some_lt {α : Type} :
    ∀ (l : List α) (i : Nat) (a : α), l.get? i = some a → i < l.length := by
  intro l
  induction l with
  | nil => intro i a h; simp [List.get?] at h
  | cons x xs ih =>
    intro i a h
    cases i with
    | zero => simp
    | succ j =>
      simp only [List.get?] at h
      have := ih j a h
      simp only [List.length_cons]
      omega

theorem set_get?_self {α : Type} :
    ∀ (l : List α) (i : Nat) (a : α), i < l.length → (l.set i a).get? i = some a := by
  intro l
  induction l with
  | nil => intro i a h; simp at h
  | cons x xs ih =>
    intro i a h
    cases i with
    | zero => simp
    | succ j =>
      simp only [List.set, List.get?]
      exact ih j a (by simpa using h)

theorem set_of_get?_eq {α : Type} :
    ∀ (l : List α) (i : Nat) (a : α), l.get? i = some a → l.set i a = l := by
  intro l
  induction l with
  | nil => intro i a h; simp [List.get?] at h
  | cons x xs ih =>
    intro i a h
    cases i with
    | zero =>
      simp only [List.get?, Option.some.injEq] at h
      simp [h]
    | succ j =>
      simp only [List.get?] at h
      simp [ih j a h]

theorem findIdx?_some_bound {α : Type} (p : α → Bool) :
    ∀ (l : List α) (a : α), a ∈ l → p a = true →
      ∀ i, ∃ j, List.findIdx? p l i = some j ∧ j < i + l.length := by
  intro l
  induction l with
  | nil => intro a ha; simp at ha
  | cons x xs ih =>
    intro a ha hp i
    rw [List.findIdx?_cons]
    by_cases hx : p x
    · rw [if_pos hx]
      exact ⟨i, rfl, by simp only [List.length_cons]; omega⟩
    · rw [if_neg hx]
      rcases List.mem_cons.mp ha with rfl | ha2
      · exact absurd hp hx
      · rcases ih a ha2 hp (i + 1) with ⟨j, hj, hjb⟩
        exact ⟨j, hj, by simp only [List.length_cons]; omega⟩

/-! ## Cache prefill lemmas -/

theorem cacheDone_of_all_done (cd : List FileEntry)
    (cached : List (Option CacheRec)) (nm : String)
    (hlen : cached.length = cd.length)
    (hall : ∀ c ∈ cached, ∃ bs it, c = some (bs, it, true))
    (e : FileEntry) (he : e ∈ cd) (hname : e.name = nm) :
    cacheDone cd cached nm = true := by
  have hp : (decide (e.name = nm)) = true := by simp [hname]
  rcases findIdx?_some_bound (fun c => decide (c.name = nm)) cd e he hp 0 with
    ⟨j, hj, hjb⟩
  have hjc : j < cached.length := by omega
  have hget : cached.get? j = some cached[j] := by
    simp [List.get?_eq_getElem?, List.getElem?_eq_getElem hjc]
  rcases hall cached[j] (by exact List.getElem_mem hjc) with ⟨bs, it, hc⟩
  unfold cacheDone cacheFor
  rw [hj]
  dsimp only
  rw [hget]
  simp [hc]

theorem buildLoop_fast (cd : List FileEntry) (cached : List (Option CacheRec)) :
    ∀ (l : List FileEntry) (acc : BuildAcc),
      (∀ e ∈ l, e.is_dir = true → cacheDone cd cached e.name = true) →
      acc.scanning = [] → acc.needsScan = false →
      (buildLoop cd cached l acc).scanning = [] ∧
        (buildLoop cd cached l acc).needsScan = false := by
  intro l
  induction l with
  | nil => intro acc _ h1 h2; exact ⟨h1, h2⟩
  | cons e rest ih =>
    intro acc hall h1 h2
    simp only [buildLoop]
    by_cases hd : e.is_dir
    · have hdone := hall e (List.mem_cons_self e rest) hd
      refine ih _ (fun e' he' hd' => hall e' (List.mem_cons_of_mem e he') hd') ?_ ?_
      · simp [buildStep, hd, hdone, h1]
      · simp [buildStep, hd, hdone, h2]
    · refine ih _ (fun e' he' hd' => hall e' (List.mem_cons_of_mem e he') hd') ?_ ?_
      · simp [buildStep, hd, h1]
      · simp [buildStep, hd, h2]

/-! ## ChildComplete characterization -/

theorem handleChild_active (s : AggState) (k n : String) (b : Nat)
    (hk : k = s.scanKey) :
    (handleChild k n b s).scanKey = s.scanKey ∧
    (handleChild k n b s).nameIndex = s.nameIndex ∧
    (handleChild k n b s).known =
      setA n (max ((lookupA s.known n).getD 0) b) s.known ∧
    (handleChild k n b s).pending = eraseA n s.pending ∧
    (handleChild k n b s).scanning = s.scanning.erase n ∧
    (handleChild k n b s).flushTimer = s.flushTimer ∧
    (handleChild k n b s).runningTotal = s.runningTotal +
      (max ((lookupA s.known n).getD 0) b - (lookupA s.known n).getD 0) ∧
    (0 < max ((lookupA s.known n).getD 0) b - (lookupA s.known n).getD 0 →
      (handleChild k n b s).totalBytes = s.runningTotal +
        (max ((lookupA s.known n).getD 0) b - (lookupA s.known n).getD 0)) ∧
    (max ((lookupA s.known n).getD 0) b - (lookupA s.known n).getD 0 = 0 →
      (handleChild k n b s).totalBytes = s.totalBytes) ∧
    ((lookupA s.nameIndex n = none ∧ (handleChild k n b s).rows = s.rows) ∨
     (∃ idx, lookupA s.nameIndex n = some idx ∧ s.rows.get? idx = none ∧
        (handleChild k n b s).rows = s.rows) ∨
     (∃ idx r, lookupA s.nameIndex n = some idx ∧ s.rows.get? idx = some r ∧
        (handleChild k n b s).rows = s.rows.set idx
          { r with displayName := r.realName.getD "undefined" ++ " /",
                   size := fmtSize (max ((lookupA s.known n).getD 0) b) })) := by
  unfold handleChild
  rw [if_neg (by simp [hk])]
  dsimp only
  by_cases hpos : 0 < max ((lookupA s.known n).getD 0) b - (lookupA s.known n).getD 0
  · rw [if_pos hpos]
    cases hni : lookupA s.nameIndex n with
    | none =>
      exact ⟨rfl, rfl, rfl, rfl, rfl, rfl, rfl, fun _ => rfl,
        fun h0 => by omega, Or.inl ⟨rfl, rfl⟩⟩
    | some idx =>
      dsimp only
      cases hrow : s.rows.get? idx with
      | none =>
        exact ⟨rfl, rfl, rfl, rfl, rfl, rfl, rfl, fun _ => rfl,
          fun h0 => by omega, Or.inr (Or.inl ⟨idx, rfl, hrow, rfl⟩)⟩
      | some r =>
        exact ⟨rfl, rfl, rfl, rfl, rfl, rfl, rfl, fun _ => rfl,
          fun h0 => by omega, Or.inr (Or.inr ⟨idx, r, rfl, hrow, rfl⟩)⟩
  · rw [if_neg hpos]
    cases hni : lookupA s.nameIndex n with
    | none =>
      exact ⟨rfl, rfl, rfl, rfl, rfl, rfl, by dsimp only; omega, fun hd => absurd hd hpos,
        fun _ => rfl, Or.inl ⟨rfl, rfl⟩⟩
    | some idx =>
      dsimp only
      cases hrow : s.rows.get? idx with
      | none =>
        exact ⟨rfl, rfl, rfl, rfl, rfl, rfl, by dsimp only; omega, fun hd => absurd hd hpos,
          fun _ => rfl, Or.inr (Or.inl ⟨idx, rfl, hrow, rfl⟩)⟩
      | some r =>
        exact ⟨rfl, rfl, rfl, rfl, rfl, rfl, by dsimp only; omega, fun hd => absurd hd hpos,
          fun _ => rfl, Or.inr (Or.inr ⟨idx, r, rfl, hrow, rfl⟩)⟩

theorem handleChild_noop (s : AggState) (k n : String) (b : Nat) (v : Nat)
    (hk : k = s.scanKey)
    (h1 : lookupA s.known n = some v) (hv : b ≤ v)
    (h2 : eraseA n s.pending = s.pending)
    (h3 : s.scanning.erase n = s.scanning)
    (h4 : ∀ idx r, lookupA s.nameIndex n = some idx → s.rows.get? idx = some r →
      r.displayName = r.realName.getD "undefined" ++ " /" ∧ r.size = fmtSize v) :
    handleChild k n b s = s := by
  unfold handleChild
  rw [if_neg (by simp [hk])]
  dsimp only
  rw [h1]
  simp only [Option.getD_some, Nat.max_eq_left hv, Nat.sub_self,
    lt_self_iff_false, if_false]
  rw [setA_of_lookup_eq _ _ _ h1, h2, h3]
  cases hni : lookupA s.nameIndex n with
  | none => rfl
  | some idx =>
    dsimp only
    cases hrow : s.rows.get? idx with
    | none => rfl
    | some r =>
      rcases h4 idx r hni hrow with ⟨hd, hsz⟩
      dsimp only
      rw [← hd, ← hsz]
      have hrr : ({ r with displayName := r.displayName, size := r.size } : RowType) = r := rfl
      rw [hrr, set_of_get?_eq s.rows idx r hrow]

/-! ## Epoch initialization invariant -/

theorem loadPath_totalEq (prev : AggState) (p : String) (vOpt : Option PaneView)
    (entries : List FileEntry) (cached : List (Option CacheRec))
    (hnd : (entries.map FileEntry.name).Nodup) :
    claimTotalEq (epochFileBytes vOpt entries)
      (loadPath prev p vOpt entries cached).state := by
  unfold loadPath epochFileBytes claimTotalEq
  dsimp only
  have hfil : ((if (vOpt.getD defaultView).showHidden then entries
      else entries.filter (fun e => ¬ isHiddenName e.name)).map
        FileEntry.name).Nodup := by
    split
    · exact hnd
    · exact List.Nodup.sublist ((List.filter_sublist _).map _) hnd
  have hperm := (sortEntries_perm (vOpt.getD defaultView)
    (if (vOpt.getD defaultView).showHidden then entries
     else entries.filter (fun e => ¬ isHiddenName e.name))).map FileEntry.name
  have hsortnd := (List.Perm.nodup_iff hperm).mpr hfil
  have hsum := buildLoop_sum
    ((sortEntries (vOpt.getD defaultView)
      (if (vOpt.getD defaultView).showHidden then entries
       else entries.filter (fun e => ¬ isHiddenName e.name))).filter
        (fun e => e.is_dir))
    cached
    (sortEntries (vOpt.getD defaultView)
      (if (vOpt.getD defaultView).showHidden then entries
       else entries.filter (fun e => ¬ isHiddenName e.name)))
    { rows := [upRow], nameIndex := [], known := [], scanning := [],
      sumCached := 0, needsScan := false }
    (fun e _ _ => rfl) hsortnd
  dsimp only at hsum
  have hz : sumA ([] : List (String × Nat)) = 0 := rfl
  rw [hz] at hsum
  omega

/-! ## C1 -/

/-- C1 (amended): within one epoch the equation `runningTotal` = file bytes +
Σ max(prefill, accepted) — i.e. file bytes + the sum of the known map — is
established by `loadPath` (for listings without duplicate names) and is
preserved by every Progress, ChildComplete and flush step; it is not
preserved by Summary (see the counterexample), but `runningTotal` and every
`knownBytes` entry are monotonically non-decreasing across all four step
kinds. -/
theorem c1_total_invariant :
    (∀ (prev : AggState) (p : String) (vOpt : Option PaneView)
        (entries : List FileEntry) (cached : List (Option CacheRec)),
        (entries.map FileEntry.name).Nodup →
        claimTotalEq (epochFileBytes vOpt entries)
          (loadPath prev p vOpt entries cached).state) ∧
    (∀ (F : Nat) (s : AggState) (e : Ev), isSummaryEv e = false →
        claimTotalEq F s → claimTotalEq F (step s e)) ∧
    (∀ (s : AggState) (e : Ev), s.runningTotal ≤ (step s e).runningTotal) ∧
    (∀ (s : AggState) (e : Ev) (n : String),
        (lookupA s.known n).getD 0 ≤ (lookupA (step s e).known n).getD 0) := by
  refine ⟨fun prev p vOpt entries cached hnd =>
    loadPath_totalEq prev p vOpt entries cached hnd, ?_, ?_, ?_⟩
  · intro F s e hns h
    cases e with
    | progress k n b => exact handleProgress_totalEq k n b s F h
    | childDone k n b => exact handleChild_totalEq k n b s F h
    | summary k b => simp [isSummaryEv] at hns
    | flushFire =>
      show claimTotalEq F (step s .flushFire)
      unfold step
      cases ht : s.flushTimer with
      | none => exact h
      | some d =>
        exact flushNow_totalEq s.flushScanKey { s with flushTimer := none } F h
  · intro s e
    cases e with
    | progress k n b => exact handleProgress_total_mono k n b s
    | childDone k n b => exact handleChild_total_mono k n b s
    | summary k b => exact handleSummary_total_mono k b s
    | flushFire =>
      show s.runningTotal ≤ (step s .flushFire).runningTotal
      unfold step
      cases ht : s.flushTimer with
      | none => exact le_refl _
      | some d =>
        exact flushNow_total_mono s.flushScanKey { s with flushTimer := none }
  · intro s e n
    cases e with
    | progress k n2 b => exact handleProgress_known_le k n2 b s n
    | childDone k n2 b => exact handleChild_known_le k n2 b s n
    | summary k b =>
      show _ ≤ (lookupA (step s (.summary k b)).known n).getD 0
      unfold step
      rw [handleSummary_known_eq]
    | flushFire =>
      show _ ≤ (lookupA (step s .flushFire).known n).getD 0
      unfold step
      cases ht : s.flushTimer with
      | none => exact le_refl _
      | some d =>
        exact flushNow_known_le s.flushScanKey { s with flushTimer := none } n

/-- C1 witness: the invariant holds for the scenario epoch and is preserved
by a concrete ChildComplete step. -/
theorem c1_total_invariant_witness :
    claimTotalEq (epochFileBytes none entsC4) lrC4.state ∧
    claimTotalEq 300 (step lrC4.state (Ev.childDone keyC4 "Y" 450)) := by
  have h := c1_total_invariant
  exact ⟨h.1 initialState "/r" none entsC4 cachedC4 (by decide),
    h.2.1 300 lrC4.state (Ev.childDone keyC4 "Y" 450) rfl (by decide)⟩

/-- C1 counterexample: a `Summary` carrying the active scan key whose
reported bytes exceed the current total raises `runningTotal` above
(file bytes) + Σ max(prefill, accepted): in the one-directory epoch the
equation holds right after prefill and fails right after `Summary(1000)`,
while no `knownBytes` entry changed — so the claimed equation does not hold
at every instant of the epoch. -/
theorem c1_counterexample :
    sYsum = step sY (Ev.summary sY.scanKey 1000) ∧
    claimTotalEq (epochFileBytes none entsY) sY ∧
    ¬ claimTotalEq (epochFileBytes none entsY) sYsum ∧
    sYsum.known = sY.known := by
  exact ⟨rfl, by decide, by decide, by decide⟩

/-! ## C2 -/

/-- C2 counterexample: after a `Summary` carrying the active scan key, the
scanning set is empty yet the directory row of a child that never received a
`ChildComplete` still shows the provisional size label `"0 B(scanning…)"` —
the summary handler rewrites only `displayName` and never strips the
scanning marker from the size label. -/
theorem c2_counterexample :
    sYsum = step sY (Ev.summary sY.scanKey 1000) ∧
    sYsum.scanning = [] ∧
    (sYsum.rows.get? 1).map RowType.isDir = some true ∧
    (sYsum.rows.get? 1).map RowType.size = some "0 B(scanning…)" ∧
    (sYsum.rows.get? 1).map (fun r => hasMarker r.size) = some true := by
  exact ⟨rfl, by decide, by decide, by decide, by decide⟩

/-- C2 (amended): a `Summary` carrying the active scan key clamps
`runningTotal` to `max(runningTotal, reported)`, publishes that total,
unconditionally clears `scanningSet` and `pendingDeltas`, cancels the flush
timer, and maps every row through the displayName normalization
`summaryRowMap` — which rebuilds directory display names as `"name /"` but
leaves every size label (and hence any residual scanning marker in it)
untouched. -/
theorem c2_summary_effect (s : AggState) (k : String) (b : Nat)
    (hk : k = s.scanKey) :
    (handleSummary k b s).runningTotal = max s.runningTotal b ∧
    (handleSummary k b s).totalBytes = max s.runningTotal b ∧
    (handleSummary k b s).scanning = [] ∧
    (handleSummary k b s).pending = [] ∧
    (handleSummary k b s).flushTimer = none ∧
    (handleSummary k b s).rows = s.rows.map summaryRowMap ∧
    (∀ r : RowType, (summaryRowMap r).size = r.size) := by
  subst hk
  unfold handleSummary
  rw [if_neg (by simp)]
  refine ⟨rfl, rfl, rfl, rfl, rfl, rfl, fun r => ?_⟩
  unfold summaryRowMap
  split
  · rfl
  · cases r.realName with
    | none => rfl
    | some nm =>
      dsimp only
      split <;> rfl

/-- C2 witness: the amended summary effect at the one-directory epoch. -/
theorem c2_summary_effect_witness :
    (handleSummary sY.scanKey 1000 sY).runningTotal = max sY.runningTotal 1000 ∧
    (handleSummary sY.scanKey 1000 sY).scanning = [] ∧
    (handleSummary sY.scanKey 1000 sY).rows = sY.rows.map summaryRowMap := by
  have h := c2_summary_effect sY sY.scanKey 1000 rfl
  exact ⟨h.1, h.2.2.1, h.2.2.2.2.2.1⟩

/-! ## C3 -/

/-- C3: every Progress, ChildComplete or Summary event whose scan key differs
from the active one leaves the whole aggregator state — known bytes,
scanning set, pending deltas, running total, published total, and rows —
exactly unchanged; it is dropped without any error path. -/
theorem c3_stale_noop (s : AggState) (e : Ev) (k : String)
    (hk : evScanId e = some k) (hne : k ≠ s.scanKey) : step s e = s := by
  cases e with
  | progress k2 n b =>
    have hne2 : k2 ≠ s.scanKey := by
      have hk2 : k2 = k := by simpa [evScanId] using hk
      rw [hk2]; exact hne
    show handleProgress k2 n b s = s
    unfold handleProgress
    rw [if_pos hne2]
  | childDone k2 n b =>
    have hne2 : k2 ≠ s.scanKey := by
      have hk2 : k2 = k := by simpa [evScanId] using hk
      rw [hk2]; exact hne
    show handleChild k2 n b s = s
    unfold handleChild
    rw [if_pos hne2]
  | summary k2 b =>
    have hne2 : k2 ≠ s.scanKey := by
      have hk2 : k2 = k := by simpa [evScanId] using hk
      rw [hk2]; exact hne
    show handleSummary k2 b s = s
    unfold handleSummary
    rw [if_pos hne2]
  | flushFire => simp [evScanId] at hk

/-- C3 witness: a stale Progress event against the scenario epoch is a
no-op. -/
theorem c3_stale_noop_witness :
    step lrC4.state (Ev.progress "stale-key" "Y" 5) = lrC4.state := by
  exact c3_stale_noop lrC4.state (Ev.progress "stale-key" "Y" 5) "stale-key"
    rfl (by decide)

/-! ## C4 -/

/-- C4: the spec's worked scenario, step by step: prefill gives
`runningTotal` = 800 with exactly `Y` scanning; `Progress(Y,300)` arms the
100 ms flush timer and the flush raises the total to 1100 and shows
`"300 B (scanning…)"` on `Y`; `ChildComplete(Y,450)` raises the total by the
clamped delta max(300,450) − 300 = 150 to 1250 and shows the exact `"450 B"`
with no marker; `Summary(1250)` leaves the total at 1250 and no scanning
marker remains on any row. -/
theorem c4_scenario :
    lrC4.state.runningTotal = 800 ∧
    lrC4.state.scanning = ["Y"] ∧
    sC4p.flushTimer = some flushDelayMs ∧
    sC4f.runningTotal = 1100 ∧
    (sC4f.rows.get? 2).map RowType.size = some "300 B (scanning…)" ∧
    (sC4f.rows.get? 2).map (fun r => hasMarker r.size) = some true ∧
    sC4c.runningTotal = 1250 ∧
    sC4c.runningTotal = sC4f.runningTotal + (max 300 450 - 300) ∧
    (sC4c.rows.get? 2).map RowType.size = some "450 B" ∧
    (sC4c.rows.get? 2).map (fun r => hasMarker r.size) = some false ∧
    sC4s.runningTotal = 1250 ∧
    sC4s.rows.all (fun r => !hasMarker r.size) = true := by
  refine ⟨by decide, by decide, by decide, by decide, by decide, by decide,
    by decide, by decide, by decide, by decide, by decide, by decide⟩

/-! ## C5 -/

/-- C5: for a Progress event carrying the active scan key: a name outside
the scanning set has no effect; otherwise the pending delta is clamped to
max(previous, bytes) and: below the fixed 8 MiB burst threshold
(`burstBytes`) nothing is applied yet — known bytes, rows and both totals
are untouched and a single-shot debounce timer of `flushDelayMs` = 100 ms
(≈10 updates/sec) is armed; at or above the threshold the flush runs
immediately in the same step (pending drained, no timer armed). -/
theorem c5_progress_throttle (s : AggState) (k n : String) (b : Nat)
    (hk : k = s.scanKey) :
    flushDelayMs = 100 ∧
    burstBytes = 8 * 1024 * 1024 ∧
    (n ∉ s.scanning → handleProgress k n b s = s) ∧
    (n ∈ s.scanning →
      max ((lookupA s.pending n).getD 0) b - s.lastFlushed < burstBytes →
      lookupA (handleProgress k n b s).pending n =
        some (max ((lookupA s.pending n).getD 0) b) ∧
      (handleProgress k n b s).known = s.known ∧
      (handleProgress k n b s).rows = s.rows ∧
      (handleProgress k n b s).runningTotal = s.runningTotal ∧
      (handleProgress k n b s).totalBytes = s.totalBytes ∧
      (handleProgress k n b s).flushTimer.isSome = true ∧
      ((s.flushTimer = none ∨ s.flushTimer = some flushDelayMs) →
        (handleProgress k n b s).flushTimer = some flushDelayMs)) ∧
    (n ∈ s.scanning →
      burstBytes ≤ max ((lookupA s.pending n).getD 0) b - s.lastFlushed →
      handleProgress k n b s =
        flushProgressNow s.scanKey
          { s with pending := setA n (max ((lookupA s.pending n).getD 0) b) s.pending,
                   lastFlushed := max ((lookupA s.pending n).getD 0) b,
                   flushTimer := none } ∧
      (handleProgress k n b s).pending = [] ∧
      (handleProgress k n b s).flushTimer = none) := by
  refine ⟨rfl, rfl, ?_, ?_, ?_⟩
  · intro hout
    unfold handleProgress
    rw [if_neg (by simp [hk]), if_pos hout]
  · intro hmem hlt
    unfold handleProgress
    rw [if_neg (by simp [hk]), if_neg (not_not_intro hmem)]
    dsimp only
    rw [if_neg (by omega)]
    refine ⟨?_, ?_, ?_, ?_, ?_, ?_, ?_⟩
    · rw [(schedule_frame _ _).2.2.2.2.1]
      exact lookupA_setA_self _ _ _
    · rw [(schedule_frame _ _).2.1]
    · rw [(schedule_frame _ _).2.2.2.2.2.2.2.1]
    · rw [(schedule_frame _ _).2.2.2.2.2.1]
    · rw [(schedule_frame _ _).2.2.2.2.2.2.1]
    · exact (schedule_frame _ _).2.2.2.2.2.2.2.2.2
    · intro htim
      exact schedule_timer _ _ htim
  · intro hmem hge
    unfold handleProgress
    rw [if_neg (by simp [hk]), if_neg (not_not_intro hmem)]
    dsimp only
    rw [if_pos hge]
    refine ⟨rfl, ?_, ?_⟩
    · exact (flushNow_frame _ _).2.2.2.2.2.2.2
    · rw [(flushNow_frame _ _).2.2.2.1]

/-- C5 witness: the throttled branch at the scenario epoch (`Progress(Y,300)`
is below the burst threshold, so it only records the pending delta and arms
the 100 ms timer). -/
theorem c5_progress_throttle_witness :
    lookupA (handleProgress keyC4 "Y" 300 lrC4.state).pending "Y" =
      some (max ((lookupA lrC4.state.pending "Y").getD 0) 300) ∧
    (handleProgress keyC4 "Y" 300 lrC4.state).known = lrC4.state.known ∧
    (handleProgress keyC4 "Y" 300 lrC4.state).flushTimer = some flushDelayMs := by
  have h := c5_progress_throttle lrC4.state keyC4 "Y" 300 rfl
  have h4 := h.2.2.2.1 (by decide) (by decide)
  exact ⟨h4.1, h4.2.1, h4.2.2.2.2.2.2 (by decide)⟩

/-! ## C6 -/

/-- C6: a ChildComplete event carrying the active scan key finalizes the
child in the same step, bypassing the flush machinery (the timer is left
untouched and no debounce is involved): the pending delta is dropped,
`knownBytes[name]` becomes max(prior, bytes), the name leaves the scanning
set, the positive difference is added to `runningTotal`, and the child's row
gets the exact formatted size with no scanning marker. -/
theorem c6_child_finalize (s : AggState) (k n : String) (b : Nat) (idx : Nat)
    (r : RowType) (hk : k = s.scanKey)
    (hpend : (keysOf s.pending).Nodup) (hscan : s.scanning.Nodup)
    (hidx : lookupA s.nameIndex n = some idx)
    (hrow : s.rows.get? idx = some r) :
    lookupA (handleChild k n b s).known n =
      some (max ((lookupA s.known n).getD 0) b) ∧
    lookupA (handleChild k n b s).pending n = none ∧
    n ∉ (handleChild k n b s).scanning ∧
    (handleChild k n b s).runningTotal = s.runningTotal +
      (max ((lookupA s.known n).getD 0) b - (lookupA s.known n).getD 0) ∧
    (handleChild k n b s).rows.get? idx =
      some { r with displayName := r.realName.getD "undefined" ++ " /",
                    size := fmtSize (max ((lookupA s.known n).getD 0) b) } ∧
    hasMarker (fmtSize (max ((lookupA s.known n).getD 0) b)) = false ∧
    (handleChild k n b s).flushTimer = s.flushTimer := by
  obtain ⟨hsk, hni, hkn, hpd, hsc, hft, hrt, _, _, hrows⟩ :=
    handleChild_active s k n b hk
  refine ⟨?_, ?_, ?_, hrt, ?_, hasMarker_fmtSize _, hft⟩
  · rw [hkn]
    exact lookupA_setA_self _ _ _
  · rw [hpd]
    exact lookupA_eq_none_of_not_mem_keys _ _ (not_mem_keys_eraseA _ _ hpend)
  · rw [hsc]
    exact hscan.not_mem_erase
  · rcases hrows with ⟨hn0, _⟩ | ⟨idx0, hidx0, hrow0, _⟩ | ⟨idx0, r0, hidx0, hrow0, hset⟩
    · rw [hn0] at hidx
      exact absurd hidx (by simp)
    · rw [hidx0] at hidx
      obtain rfl := Option.some.inj hidx
      rw [hrow0] at hrow
      exact absurd hrow (by simp)
    · rw [hidx0] at hidx
      obtain rfl := Option.some.inj hidx
      rw [hrow0] at hrow
      obtain rfl := Option.some.inj hrow
      rw [hset]
      exact set_get?_self _ _ _ (get?_some_lt _ _ _ hrow0)

/-- C6 witness: `ChildComplete(Y, 450)` in the scenario epoch. -/
theorem c6_child_finalize_witness :
    lookupA (handleChild keyC4 "Y" 450 sC4f).known "Y" =
      some (max ((lookupA sC4f.known "Y").getD 0) 450) ∧
    (handleChild keyC4 "Y" 450 sC4f).rows.get? 2 =
      some { displayName := "Y /", isDir := true, size := fmtSize 450,
             date := " ", realName := some "Y" } ∧
    hasMarker (fmtSize (max ((lookupA sC4f.known "Y").getD 0) 450)) = false := by
  have h := c6_child_finalize sC4f keyC4 "Y" 450 2
    { displayName := "Y /", isDir := true, size := "300 B (scanning…)",
      date := " ", realName := some "Y" }
    rfl (by decide) (by decide) (by decide) (by decide)
  refine ⟨h.1, ?_, h.2.2.2.2.2.1⟩
  have h5 := h.2.2.2.2.1
  rw [h5]
  decide

/-! ## C7 -/

/-- C7: when the batch cache lookup answers a `completed = true` record for
every child directory (one answer per child), the scanning set is empty
right after prefill and the scan coordinator is never invoked
(`startScan = false`): the epoch settles purely from cache and listing. -/
theorem c7_fastpath (prev : AggState) (p : String) (vOpt : Option PaneView)
    (entries : List FileEntry) (cached : List (Option CacheRec))
    (hlen : cached.length = (childDirsOf vOpt entries).length)
    (hall : ∀ c ∈ cached, ∃ bs it, c = some (bs, it, true)) :
    (loadPath prev p vOpt entries cached).state.scanning = [] ∧
    (loadPath prev p vOpt entries cached).startScan = false := by
  unfold loadPath
  dsimp only
  refine buildLoop_fast _ _ _ _ ?_ rfl rfl
  intro e he hd
  refine cacheDone_of_all_done _ _ _ hlen hall e ?_ rfl
  exact List.mem_filter.mpr ⟨he, hd⟩

/-- C7 witness: the scenario listing with both children completed in cache
settles without starting a scan. -/
theorem c7_fastpath_witness :
    lrFast.state.scanning = [] ∧ lrFast.startScan = false := by
  exact c7_fastpath initialState "/r" none entsC4 cachedAllDone
    (by decide)
    (by
      intro c hc
      simp only [cachedAllDone, List.mem_cons, List.not_mem_nil, or_false] at hc
      rcases hc with rfl | rfl
      · exact ⟨500, 0, rfl⟩
      · exact ⟨42, 0, rfl⟩)

/-! ## C8 -/

/-- C8 counterexample: under the size sort, two equal-sized files tie — the
comparator returns 0, so the stable sort keeps the listing order
(`b.txt` before `a.txt`), while the claimed case-insensitive-name tie-break
(`claimCompare`) would order `a.txt` strictly first: the row projection does
not break ties by case-insensitive name. -/
theorem c8_counterexample :
    compareEntry
      { name := "b.txt", is_dir := false, size := some 100, modified := none }
      { name := "a.txt", is_dir := false, size := some 100, modified := none }
      vSize = 0 ∧
    claimCompare
      { name := "a.txt", is_dir := false, size := some 100, modified := none }
      { name := "b.txt", is_dir := false, size := some 100, modified := none }
      vSize = -1 ∧
    claimCompare
      { name := "b.txt", is_dir := false, size := some 100, modified := none }
      { name := "a.txt", is_dir := false, size := some 100, modified := none }
      vSize = 1 ∧
    (lrTie.state.rows.get? 1).map (fun r => r.realName) = some (some "b.txt") ∧
    (lrTie.state.rows.get? 2).map (fun r => r.realName) = some (some "a.txt") := by
  exact ⟨by decide, by decide, by decide, by decide, by decide⟩

/-- C8 (amended): the comparator used to build the row projection puts the
directories-first partition first (when enabled, and never inverted by the
direction), then the selected key with direction inversion applied last
(name and the type tie-break are case-insensitive, per `keyCmp`); ties under
the size key yield 0, so the stable sort preserves listing order — there is
no case-insensitive-name tie-break outside the type key. -/
theorem c8_sort_order (a b : FileEntry) (v : PaneView) :
    (v.dirsFirst = true → a.is_dir = true → b.is_dir = false →
      compareEntry a b v = -1) ∧
    (v.dirsFirst = true → a.is_dir = false → b.is_dir = true →
      compareEntry a b v = 1) ∧
    ((v.dirsFirst = false ∨ a.is_dir = b.is_dir) →
      compareEntry a b v = dirApply v (keyCmp v a b)) ∧
    (v.sortKey = SortKey.size → a.size.getD 0 = b.size.getD 0 →
      (v.dirsFirst = false ∨ a.is_dir = b.is_dir) →
      compareEntry a b v = 0) := by
  have key3 : (v.dirsFirst = false ∨ a.is_dir = b.is_dir) →
      compareEntry a b v = dirApply v (keyCmp v a b) := by
    intro h
    unfold compareEntry
    rw [if_neg, if_neg]
    · unfold dirApply
      rfl
    · rcases h with h | h
      · simp [h]
      · intro hc
        exact hc.2.1 (by rw [h]; exact hc.2.2)
    · rcases h with h | h
      · simp [h]
      · intro hc
        exact hc.2.2 (by rw [← h]; exact hc.2.1)
  refine ⟨?_, ?_, key3, ?_⟩
  · intro h1 h2 h3
    unfold compareEntry
    rw [if_pos ⟨h1, h2, by simp [h3]⟩]
  · intro h1 h2 h3
    unfold compareEntry
    rw [if_neg (by simp [h2]), if_pos ⟨h1, by simp [h2], h3⟩]
  · intro hsk hsz h
    rw [key3 h]
    simp [dirApply, keyCmp, hsk, hsz]

/-- C8 witness: the amended ordering facts at the tied pair. -/
theorem c8_sort_order_witness :
    compareEntry
      { name := "b.txt", is_dir := false, size := some 100, modified := none }
      { name := "a.txt", is_dir := false, size := some 100, modified := none }
      vSize =
      dirApply vSize (keyCmp vSize
        { name := "b.txt", is_dir := false, size := some 100, modified := none }
        { name := "a.txt", is_dir := false, size := some 100, modified := none }) ∧
    compareEntry
      { name := "b.txt", is_dir := false, size := some 100, modified := none }
      { name := "a.txt", is_dir := false, size := some 100, modified := none }
      vSize = 0 := by
  have h := c8_sort_order
    { name := "b.txt", is_dir := false, size := some 100, modified := none }
    { name := "a.txt", is_dir := false, size := some 100, modified := none }
    vSize
  exact ⟨h.2.2.1 (Or.inr rfl), h.2.2.2 rfl (by decide) (Or.inr rfl)⟩

/-! ## C9 -/

/-- C9: a ChildComplete event carrying the active scan key whose name has no
row in the projection still records `knownBytes[name]` and adds the positive
delta to `runningTotal` (publishing the new total), while skipping only the
row update — the rows are unchanged, so the published total can include
bytes no visible row accounts for. -/
theorem c9_child_unlisted (s : AggState) (k n : String) (b : Nat)
    (hk : k = s.scanKey) (hidx : lookupA s.nameIndex n = none) :
    (handleChild k n b s).rows = s.rows ∧
    lookupA (handleChild k n b s).known n =
      some (max ((lookupA s.known n).getD 0) b) ∧
    (handleChild k n b s).runningTotal = s.runningTotal +
      (max ((lookupA s.known n).getD 0) b - (lookupA s.known n).getD 0) ∧
    (0 < max ((lookupA s.known n).getD 0) b - (lookupA s.known n).getD 0 →
      (handleChild k n b s).totalBytes = (handleChild k n b s).runningTotal) := by
  obtain ⟨hsk, hni, hkn, hpd, hsc, hft, hrt, htbp, htbz, hrows⟩ :=
    handleChild_active s k n b hk
  refine ⟨?_, ?_, hrt, ?_⟩
  · rcases hrows with ⟨_, hr⟩ | ⟨idx0, hidx0, _, hr⟩ | ⟨idx0, r0, hidx0, _, _⟩
    · exact hr
    · rw [hidx] at hidx0
      exact absurd hidx0 (by simp)
    · rw [hidx] at hidx0
      exact absurd hidx0 (by simp)
  · rw [hkn]
    exact lookupA_setA_self _ _ _
  · intro hpos
    rw [htbp hpos, hrt]

/-- C9 witness: `ChildComplete(Z, 7)` for the never-listed name `Z` in the
scenario epoch records the bytes and raises the totals with rows
unchanged. -/
theorem c9_child_unlisted_witness :
    (handleChild keyC4 "Z" 7 lrC4.state).rows = lrC4.state.rows ∧
    lookupA (handleChild keyC4 "Z" 7 lrC4.state).known "Z" =
      some (max ((lookupA lrC4.state.known "Z").getD 0) 7) ∧
    (0 < max ((lookupA lrC4.state.known "Z").getD 0) 7 -
        (lookupA lrC4.state.known "Z").getD 0 →
      (handleChild keyC4 "Z" 7 lrC4.state).totalBytes =
        (handleChild keyC4 "Z" 7 lrC4.state).runningTotal) := by
  have h := c9_child_unlisted lrC4.state keyC4 "Z" 7 rfl (by decide)
  exact ⟨h.1, h.2.1, h.2.2.2⟩

/-! ## C10 -/

/-- C10: delivering the same ChildComplete event (same scan key, name and
bytes) twice in succession is idempotent — the second delivery reproduces
exactly the state left by the first, because the monotonic clamp yields a
zero delta on the repeat (the pending map and the scanning set are
duplicate-free, as JS `Map`/`Set` keys are). -/
theorem c10_child_idempotent (s : AggState) (k n : String) (b : Nat)
    (hpend : (keysOf s.pending).Nodup) (hscan : s.scanning.Nodup) :
    handleChild k n b (handleChild k n b s) = handleChild k n b s := by
  by_cases hk : k = s.scanKey
  · obtain ⟨hsk, hni, hkn, hpd, hsc, hft, hrt, htbp, htbz, hrows⟩ :=
      handleChild_active s k n b hk
    apply handleChild_noop _ _ _ _ (max ((lookupA s.known n).getD 0) b)
    · rw [hsk]
      exact hk
    · rw [hkn]
      exact lookupA_setA_self _ _ _
    · exact le_max_right _ _
    · rw [hpd]
      exact eraseA_of_not_mem_keys _ _ (not_mem_keys_eraseA _ _ hpend)
    · rw [hsc]
      exact List.erase_of_not_mem hscan.not_mem_erase
    · intro idx r hidx2 hrow2
      rw [hni] at hidx2
      rcases hrows with ⟨hn0, _⟩ | ⟨idx0, hidx0, hrow0, hR⟩ |
        ⟨idx0, r0, hidx0, hrow0, hR⟩
      · rw [hn0] at hidx2
        exact absurd hidx2 (by simp)
      · have heq : idx0 = idx := by
          rw [hidx0] at hidx2
          exact Option.some.inj hidx2
        subst heq
        rw [hR, hrow0] at hrow2
        exact absurd hrow2 (by simp)
      · have heq : idx0 = idx := by
          rw [hidx0] at hidx2
          exact Option.some.inj hidx2
        subst heq
        rw [hR] at hrow2
        rw [set_get?_self _ _ _ (get?_some_lt _ _ _ hrow0)] at hrow2
        obtain rfl := (Option.some.inj hrow2).symm
        exact ⟨rfl, rfl⟩
  · have h1 : handleChild k n b s = s := by
      unfold handleChild
      rw [if_pos hk]
    rw [h1]
    exact h1

/-- C10 witness: the concrete repeat of `ChildComplete(Y, 450)` in the
scenario epoch. -/
theorem c10_child_idempotent_witness :
    handleChild keyC4 "Y" 450 (handleChild keyC4 "Y" 450 sC4f) =
      handleChild keyC4 "Y" 450 sC4f := by
  exact c10_child_idempotent sC4f keyC4 "Y" 450 (by decide) (by decide)

end CopyCut
